import Mathlib

/-!
A verification development for the word-cloud generation core of this
repository: the frequency analyzer, glyph-box preparer, spatial packer and
SVG renderer of `src/wordcloud/generator.ts`, together with the places where
the advanced (`AdvancedWordCloudGenerator`) and multi-format
(`MultiFormatWordCloudGenerator`) variants differ.  Machine numbers are
modelled as real (or rational, where no transcendental function occurs)
numbers; JavaScript `Map` iteration order is modelled by association lists
kept in insertion order.
-/

namespace WordCloud

/-- Whitespace trimming, modelling JavaScript `String.prototype.trim` on the
character list of the string. -/
def jsTrim (s : String) : String :=
  ⟨((s.data.dropWhile Char.isWhitespace).reverse.dropWhile Char.isWhitespace).reverse⟩

/-- One step of frequency counting: `bump m word` models
`frequencyMap.set(word, (frequencyMap.get(word) || 0) + 1)` on a JavaScript
`Map`, which keeps insertion order: an existing key is updated in place and a
new key is appended at the end. -/
def bump : List (String × Nat) → String → List (String × Nat)
  | [], w => [(w, 1)]
  | (k, v) :: rest, w => if k = w then (k, v + 1) :: rest else (k, v) :: bump rest w

/-- `analyzeWordFrequency` (`generator.ts` lines 171-194), taken from the token
list produced by `text.split(/\s+/)` onwards: drop empty tokens, trim each
token, count occurrences in a `Map`, sort descending by frequency (JavaScript
`Array.prototype.sort` is stable) and keep the first 120 entries. -/
def analyzeWordFrequency (tokens : List String) : List (String × Nat) :=
  let words := tokens.filter fun w => w.length > 0
  let frequencyMap := words.foldl (fun m word =>
    let cleanWord := jsTrim word
    if cleanWord.length > 0 then bump m cleanWord else m) []
  (List.insertionSort (fun a b => b.2 ≤ a.2) frequencyMap).take 120

/-- The effective word sequence counted by `analyzeWordFrequency`: nonempty
tokens, trimmed, with tokens that trim to the empty string dropped. -/
def cleanedTokens (tokens : List String) : List String :=
  ((tokens.filter fun w => w.length > 0).map jsTrim).filter fun w => w.length > 0

/-- Index of the first occurrence of `w` in `l`. -/
def findIdxOf (l : List String) (w : String) : Nat :=
  l.findIdx fun t => t == w

/-- Counting a whole word list into an insertion-ordered frequency map. -/
def countAll (cs : List String) : List (String × Nat) :=
  cs.foldl bump []

theorem foldl_trimStep_eq (ws : List String) (m : List (String × Nat)) :
    ws.foldl (fun m word =>
      let cleanWord := jsTrim word
      if cleanWord.length > 0 then bump m cleanWord else m) m
    = ((ws.map jsTrim).filter fun w => w.length > 0).foldl bump m := by
  induction ws generalizing m with
  | nil => rfl
  | cons w ws ih =>
    by_cases h : (jsTrim w).length > 0 <;>
      simp [List.foldl_cons, h, ih]

theorem analyzeWordFrequency_eq (tokens : List String) :
    analyzeWordFrequency tokens
    = (List.insertionSort (fun a b => b.2 ≤ a.2) (countAll (cleanedTokens tokens))).take 120 := by
  simp only [analyzeWordFrequency, cleanedTokens, countAll]
  rw [foldl_trimStep_eq]

theorem bump_snd_pos (m : List (String × Nat)) (w : String)
    (hm : ∀ p ∈ m, 1 ≤ p.2) : ∀ p ∈ bump m w, 1 ≤ p.2 := by
  induction m with
  | nil =>
    intro p hp
    simp [bump] at hp
    simp [hp]
  | cons q rest ih =>
    intro p hp
    obtain ⟨k, v⟩ := q
    by_cases h : k = w
    · simp [bump, h] at hp
      rcases hp with hp | hp
      · simp [hp]
      · exact hm p (List.mem_cons_of_mem _ hp)
    · simp [bump, h] at hp
      rcases hp with hp | hp
      · subst hp; exact hm (k, v) (List.mem_cons_self _ _)
      · exact ih (fun q hq => hm q (List.mem_cons_of_mem _ hq)) p hp

theorem bump_map_fst_mem (m : List (String × Nat)) (w : String)
    (hw : w ∈ m.map Prod.fst) :
    (bump m w).map Prod.fst = m.map Prod.fst := by
  induction m with
  | nil => simp at hw
  | cons q rest ih =>
    obtain ⟨k, v⟩ := q
    by_cases h : k = w
    · simp [bump, h]
    · rw [List.map_cons] at hw
      have hw' : w ∈ rest.map Prod.fst := by
        rcases List.mem_cons.mp hw with h1 | h1
        · exact absurd h1.symm h
        · exact h1
      simp [bump, h, ih hw']

theorem bump_not_mem (m : List (String × Nat)) (w : String)
    (hw : w ∉ m.map Prod.fst) :
    bump m w = m ++ [(w, 1)] := by
  induction m with
  | nil => simp [bump]
  | cons q rest ih =>
    obtain ⟨k, v⟩ := q
    rw [List.map_cons] at hw
    have h1 : ¬k = w := fun h => hw (h ▸ List.mem_cons_self _ _)
    have h2 : w ∉ rest.map Prod.fst := fun h => hw (List.mem_cons_of_mem _ h)
    simp [bump, h1, ih h2]

theorem findIdx_append_left (p : String → Bool) (l₁ l₂ : List String)
    (h : ∃ x ∈ l₁, p x = true) :
    (l₁ ++ l₂).findIdx p = l₁.findIdx p := by
  induction l₁ with
  | nil => simp at h
  | cons a l ih =>
    by_cases ha : p a
    · simp [List.findIdx_cons, ha]
    · have ha' : p a = false := by simpa using ha
      obtain ⟨x, hx, hpx⟩ := h
      have hxl : x ∈ l := by
        rcases List.mem_cons.mp hx with h1 | h1
        · subst h1; rw [hpx] at ha'; cases ha'
        · exact h1
      simp [List.findIdx_cons, ha', ih ⟨x, hxl, hpx⟩]

theorem findIdx_append_singleton_self (l : List String) (w : String)
    (hw : w ∉ l) :
    (l ++ [w]).findIdx (fun t => t == w) = l.length := by
  induction l with
  | nil => simp [List.findIdx_cons]
  | cons a l ih =>
    have ha : (a == w) = false := by
      simp only [beq_eq_false_iff_ne]
      intro h; exact hw (h ▸ List.mem_cons_self a l)
    simp only [List.cons_append, List.findIdx_cons, ha, cond_false, List.length_cons]
    rw [ih (fun h => hw (List.mem_cons_of_mem _ h))]

theorem findIdxOf_mem_lt_length (l : List String) (w : String) (hw : w ∈ l) :
    findIdxOf l w < l.length :=
  List.findIdx_lt_length_of_exists ⟨w, hw, by simp⟩

theorem findIdxOf_append_of_mem (l₁ l₂ : List String) (w : String) (hw : w ∈ l₁) :
    findIdxOf (l₁ ++ l₂) w = findIdxOf l₁ w :=
  findIdx_append_left _ _ _ ⟨w, hw, by simp⟩

/-- The combined invariant of the counting fold: every count is at least 1,
the keys are exactly the words seen, and the keys are listed in strictly
increasing first-occurrence order. -/
theorem countAll_invariant (cs : List String) :
    (∀ p ∈ countAll cs, 1 ≤ p.2) ∧
    (∀ k ∈ (countAll cs).map Prod.fst, k ∈ cs) ∧
    (∀ t ∈ cs, t ∈ (countAll cs).map Prod.fst) ∧
    ((countAll cs).map Prod.fst).Pairwise
      (fun k₁ k₂ => findIdxOf cs k₁ < findIdxOf cs k₂) := by
  induction cs using List.reverseRecOn with
  | nil => simp [countAll]
  | append_singleton cs w ih =>
    obtain ⟨ih1, ih2, ih3, ih4⟩ := ih
    have hstep : countAll (cs ++ [w]) = bump (countAll cs) w := by
      simp [countAll, List.foldl_append]
    by_cases hw : w ∈ (countAll cs).map Prod.fst
    · -- the word was already counted: keys unchanged
      have hkeys : (countAll (cs ++ [w])).map Prod.fst = (countAll cs).map Prod.fst := by
        rw [hstep, bump_map_fst_mem _ _ hw]
      refine ⟨?_, ?_, ?_, ?_⟩
      · intro p hp
        rw [hstep] at hp
        exact bump_snd_pos _ _ ih1 p hp
      · intro k hk
        rw [hkeys] at hk
        exact List.mem_append_left _ (ih2 k hk)
      · intro t ht
        rw [hkeys]
        rcases List.mem_append.mp ht with ht | ht
        · exact ih3 t ht
        · simp at ht; exact ht ▸ hw
      · rw [hkeys]
        refine ih4.imp_of_mem ?_
        intro k₁ k₂ hk₁ hk₂ h
        rwa [findIdxOf_append_of_mem _ _ _ (ih2 _ hk₁),
          findIdxOf_append_of_mem _ _ _ (ih2 _ hk₂)]
    · -- a new word: appended at the end of the key list
      have hwcs : w ∉ cs := fun h => hw (ih3 w h)
      have hkeys : (countAll (cs ++ [w])).map Prod.fst
          = (countAll cs).map Prod.fst ++ [w] := by
        rw [hstep, bump_not_mem _ _ hw]; simp
      refine ⟨?_, ?_, ?_, ?_⟩
      · intro p hp
        rw [hstep] at hp
        exact bump_snd_pos _ _ ih1 p hp
      · intro k hk
        rw [hkeys] at hk
        rcases List.mem_append.mp hk with hk | hk
        · exact List.mem_append_left _ (ih2 k hk)
        · simp at hk; simp [hk]
      · intro t ht
        rw [hkeys]
        rcases List.mem_append.mp ht with ht | ht
        · exact List.mem_append_left _ (ih3 t ht)
        · simp at ht; simp [ht]
      · rw [hkeys]
        rw [List.pairwise_append]
        refine ⟨?_, by simp, ?_⟩
        · refine ih4.imp_of_mem ?_
          intro k₁ k₂ hk₁ hk₂ h
          rwa [findIdxOf_append_of_mem _ _ _ (ih2 _ hk₁),
            findIdxOf_append_of_mem _ _ _ (ih2 _ hk₂)]
        · intro k hk w' hw'
          simp at hw'
          rw [hw']
          have hkcs : k ∈ cs := ih2 k hk
          have h1 : findIdxOf (cs ++ [w]) k < cs.length := by
            rw [findIdxOf_append_of_mem _ _ _ hkcs]
            exact findIdxOf_mem_lt_length _ _ hkcs
          have h2 : findIdxOf (cs ++ [w]) w = cs.length :=
            findIdx_append_singleton_self _ _ hwcs
          omega

section StableSort

variable {α : Type} (key : α → Nat) (R : α → α → Prop)

/-- Inserting into a list that is non-increasingly sorted on `key` and whose
ties are `R`-ordered keeps that shape, provided the inserted element is
`R`-before every element of the list. -/
theorem orderedInsert_pairwise_stable (x : α) (s : List α)
    (hs : s.Pairwise (fun a b => key b ≤ key a ∧ (key a = key b → R a b)))
    (hx : ∀ y ∈ s, R x y) :
    (List.orderedInsert (fun a b => key b ≤ key a) x s).Pairwise
      (fun a b => key b ≤ key a ∧ (key a = key b → R a b)) := by
  induction s with
  | nil => simp
  | cons b t ih =>
    by_cases hbx : key b ≤ key x
    · rw [List.orderedInsert, if_pos hbx]
      refine List.pairwise_cons.mpr ⟨?_, hs⟩
      intro y hy
      rcases List.mem_cons.mp hy with rfl | hyt
      · exact ⟨hbx, fun _ => hx y (List.mem_cons_self _ _)⟩
      · have hby := (List.pairwise_cons.mp hs).1 y hyt
        exact ⟨le_trans hby.1 hbx, fun _ => hx y (List.mem_cons_of_mem _ hyt)⟩
    · rw [List.orderedInsert, if_neg hbx]
      have hxb : key x < key b := lt_of_not_le hbx
      obtain ⟨hbt, htp⟩ := List.pairwise_cons.mp hs
      refine List.pairwise_cons.mpr ⟨?_, ih htp (fun y hy => hx y (List.mem_cons_of_mem _ hy))⟩
      intro y hy
      rcases (List.mem_orderedInsert _).mp hy with rfl | hyt
      · exact ⟨le_of_lt hxb, fun h => absurd h (by omega)⟩
      · exact hbt y hyt

/-- Mathlib's `List.insertionSort` with the comparator `key b ≤ key a` is a
stable descending sort: the output is non-increasing on `key`, and elements
with equal keys keep the relative order `R` they had in the input. -/
theorem insertionSort_pairwise_stable (l : List α) (hl : l.Pairwise R) :
    (List.insertionSort (fun a b => key b ≤ key a) l).Pairwise
      (fun a b => key b ≤ key a ∧ (key a = key b → R a b)) := by
  induction l with
  | nil => simp
  | cons x xs ih =>
    obtain ⟨hx, hxs⟩ := List.pairwise_cons.mp hl
    rw [List.insertionSort]
    refine orderedInsert_pairwise_stable key R x _ (ih hxs) ?_
    intro y hy
    exact hx y ((List.perm_insertionSort _ xs).mem_iff.mp hy)

end StableSort

/-- Claim C5.  For every token sequence, `analyzeWordFrequency` returns a
(word, frequency) list sorted non-increasingly by frequency, with
equal-frequency words in first-occurrence order (stable tie-break), truncated
to at most 120 entries, with every frequency at least 1; and the tokens
`[a,b,a,c,b,a]` yield exactly `[(a,3),(b,2),(c,1)]`.  As a pure function of
the token list, the result is identical on every run. -/
theorem claimC5 (tokens : List String) :
    (analyzeWordFrequency tokens).Pairwise
      (fun a b => b.2 ≤ a.2 ∧ (a.2 = b.2 →
        findIdxOf (cleanedTokens tokens) a.1 < findIdxOf (cleanedTokens tokens) b.1)) ∧
    (analyzeWordFrequency tokens).length ≤ 120 ∧
    (∀ p ∈ analyzeWordFrequency tokens, 1 ≤ p.2) ∧
    analyzeWordFrequency ["a", "b", "a", "c", "b", "a"]
      = [("a", 3), ("b", 2), ("c", 1)] := by
  obtain ⟨h1, h2, _h3, h4⟩ := countAll_invariant (cleanedTokens tokens)
  have hpw : (countAll (cleanedTokens tokens)).Pairwise
      (fun a b => findIdxOf (cleanedTokens tokens) a.1 < findIdxOf (cleanedTokens tokens) b.1) := by
    have := (List.pairwise_map (f := Prod.fst)).mp h4
    exact this
  refine ⟨?_, ?_, ?_, by decide⟩
  · rw [analyzeWordFrequency_eq]
    exact ((insertionSort_pairwise_stable Prod.snd _ _ hpw).sublist
      (List.take_sublist _ _))
  · rw [analyzeWordFrequency_eq]
    exact List.length_take_le _ _
  · rw [analyzeWordFrequency_eq]
    intro p hp
    have hp' : p ∈ countAll (cleanedTokens tokens) :=
      (List.perm_insertionSort _ _).mem_iff.mp ((List.take_sublist _ _).mem hp)
    exact h1 p hp'

/-- Claim C5, witness: the analyzer evaluated on the tokens
`[a,b,a,c,b,a]`, with the frequency bound instantiated at `(a, 3)`. -/
theorem claimC5_witness :
    1 ≤ (("a", 3) : String × Nat).2 ∧
    analyzeWordFrequency ["a", "b", "a", "c", "b", "a"]
      = [("a", 3), ("b", 2), ("c", 1)] :=
  ⟨(claimC5 ["a", "b", "a", "c", "b", "a"]).2.2.1 ("a", 3) (by decide),
   (claimC5 []).2.2.2⟩

/-! ### Color selection (`generator.ts` lines 287-306) -/

/-- The `default` color theme of `generator.ts` (lines 83-88). -/
def defaultColors : List String :=
  ["#FF4444", "#2196F3", "#4CAF50", "#FF9800", "#9C27B0",
   "#00BCD4", "#795548", "#607D8B", "#E91E63", "#3F51B5",
   "#009688", "#FFC107", "#673AB7", "#FF5722", "#8BC34A",
   "#CDDC39", "#FF6B6B", "#4ECDC4", "#45B7D1", "#96CEB4"]

/-- `selectColorInternal` from `generator.ts`: the bucket is chosen from the
frequency ratio `frequency / maxFreq`, the entry inside the bucket by the
word rank `index`, cyclically.  `colors[i]` is modelled by `getD` (the themes
are non-empty, so the JavaScript access never yields `undefined`). -/
def selectColorInternal (colors : List String) (index : Nat)
    (frequency maxFreq : ℚ) : String :=
  let frequencyRatio := frequency / maxFreq
  if frequencyRatio > 0.8 then
    colors.getD (index % min 5 colors.length) ""
  else if frequencyRatio > 0.5 then
    colors.getD (index % min 10 colors.length) ""
  else
    colors.getD (index % colors.length) ""

/-- Claim C7, counterexample.  The claim predicts that a word of rank 12
(inside the claimed 5..14 bucket) draws from the first 10 palette entries,
i.e. gets `palette[12 % 10] = palette[2]`; with frequency 3 against maximum
frequency 10 the code's ratio bucket instead uses the full palette and
returns `palette[12]`. -/
theorem claimC7_cex :
    selectColorInternal defaultColors 12 3 10 = "#673AB7" ∧
    selectColorInternal defaultColors 12 3 10 ≠ defaultColors.getD (12 % 10) "" := by
  have h1 : ¬((3:ℚ) / 10 > 0.8) := by norm_num
  have h2 : ¬((3:ℚ) / 10 > 0.5) := by norm_num
  simp only [selectColorInternal, if_neg h1, if_neg h2]
  constructor <;> decide

/-- Claim C7, amended.  Color selection is deterministic given rank and
frequency, and the buckets are decided by the frequency ratio alone (not by
rank): ratio above 0.8 draws cyclically from the first 5 palette entries,
ratio above 0.5 (but not above 0.8) from the first 10, and every other word
from the full palette; in particular the top five ranks always receive
`palette[rank]` whatever their frequency ratio. -/
theorem claimC7 (colors : List String) (index : Nat) (frequency maxFreq : ℚ)
    (hlen : 10 ≤ colors.length) :
    (frequency / maxFreq > 0.8 →
      selectColorInternal colors index frequency maxFreq = colors.getD (index % 5) "") ∧
    (¬frequency / maxFreq > 0.8 → frequency / maxFreq > 0.5 →
      selectColorInternal colors index frequency maxFreq = colors.getD (index % 10) "") ∧
    (¬frequency / maxFreq > 0.8 → ¬frequency / maxFreq > 0.5 →
      selectColorInternal colors index frequency maxFreq
        = colors.getD (index % colors.length) "") ∧
    (index < 5 →
      selectColorInternal colors index frequency maxFreq = colors.getD index "") := by
  have h5 : min 5 colors.length = 5 := Nat.min_eq_left (by omega)
  have h10 : min 10 colors.length = 10 := Nat.min_eq_left hlen
  refine ⟨?_, ?_, ?_, ?_⟩
  · intro h
    simp only [selectColorInternal, if_pos h, h5]
  · intro h h'
    simp only [selectColorInternal, if_neg h, if_pos h', h10]
  · intro h h'
    simp only [selectColorInternal, if_neg h, if_neg h']
  · intro hidx
    have e5 : index % 5 = index := Nat.mod_eq_of_lt hidx
    have e10 : index % 10 = index := Nat.mod_eq_of_lt (by omega)
    have elen : index % colors.length = index := Nat.mod_eq_of_lt (by omega)
    by_cases h : frequency / maxFreq > 0.8
    · simp only [selectColorInternal, if_pos h, h5, e5]
    · by_cases h' : frequency / maxFreq > 0.5
      · simp only [selectColorInternal, if_neg h, if_pos h', h10, e10]
      · simp only [selectColorInternal, if_neg h, if_neg h', elen]

/-- Claim C7, witness: the amended theorem applied to the default palette at
rank 2 with frequency 9 of maximum 10. -/
theorem claimC7_witness :
    10 ≤ defaultColors.length ∧
    (((9:ℚ) / 10 > 0.8 →
      selectColorInternal defaultColors 2 9 10 = defaultColors.getD (2 % 5) "") ∧
    (¬(9:ℚ) / 10 > 0.8 → (9:ℚ) / 10 > 0.5 →
      selectColorInternal defaultColors 2 9 10 = defaultColors.getD (2 % 10) "") ∧
    (¬(9:ℚ) / 10 > 0.8 → ¬(9:ℚ) / 10 > 0.5 →
      selectColorInternal defaultColors 2 9 10
        = defaultColors.getD (2 % defaultColors.length) "") ∧
    (2 < 5 →
      selectColorInternal defaultColors 2 9 10 = defaultColors.getD 2 "")) :=
  ⟨by decide, claimC7 defaultColors 2 9 10 (by decide)⟩

/-! ### Font size calculation (`generator.ts` lines 251-276, and the variant
`calculateAdvancedFontSize` of the advanced generator, also used verbatim as
`calculateFontSize` by the multi-format generator) -/

/-- The `fontSize: {min, max}` configuration record. -/
structure FontSizeRange where
  min : ℝ
  max : ℝ

/-- `calculateFontSize` from `generator.ts`: normalize the frequency, apply a
`pow 0.5` curve, map linearly into the font range, and clamp the result to at
most 80% of the range above its minimum. -/
noncomputable def calculateFontSize (frequency minFreq maxFreq : ℝ)
    (fontSizeRange : FontSizeRange) : ℝ :=
  if maxFreq = minFreq then (fontSizeRange.min + fontSizeRange.max) / 2
  else
    let normalizedFreq := (frequency - minFreq) / (maxFreq - minFreq)
    let scaledFreq := normalizedFreq ^ (0.5 : ℝ)
    let sizeRange := fontSizeRange.max - fontSizeRange.min
    let calculatedSize := fontSizeRange.min + scaledFreq * sizeRange
    let maxAllowedSize := fontSizeRange.min + sizeRange * 0.8
    min calculatedSize maxAllowedSize

/-- `calculateAdvancedFontSize` from the advanced generator (and, with the
name `calculateFontSize`, the multi-format generator): a logarithmic curve
with *no* 80% clamp. -/
noncomputable def calculateAdvancedFontSize (frequency minFreq maxFreq : ℝ)
    (fontSizeRange : FontSizeRange) : ℝ :=
  if maxFreq = minFreq then (fontSizeRange.min + fontSizeRange.max) / 2
  else
    let normalizedFreq := (frequency - minFreq) / (maxFreq - minFreq)
    let logScale := Real.log (normalizedFreq + 1) / Real.log 2
    let enhancedScale := logScale ^ (0.8 : ℝ)
    fontSizeRange.min + enhancedScale * (fontSizeRange.max - fontSizeRange.min)

/-- Claim C2, counterexample.  The advanced variant applies no 80% clamp: for
frequencies `{1, 2}` and the default font range `{16, 66}`, the word of
frequency 2 (the maximum) gets font size exactly 66, which exceeds
`16 + 0.8 × (66 − 16) = 56`. -/
theorem claimC2_cex :
    calculateAdvancedFontSize 2 1 2 ⟨16, 66⟩ = 66 ∧
    ¬calculateAdvancedFontSize 2 1 2 ⟨16, 66⟩ ≤ 16 + 0.8 * (66 - 16) := by
  have hlog : Real.log 2 ≠ 0 := (Real.log_pos (by norm_num)).ne'
  have h : calculateAdvancedFontSize 2 1 2 ⟨16, 66⟩ = 66 := by
    rw [calculateAdvancedFontSize, if_neg (by norm_num)]
    simp only
    norm_num [div_self hlog, Real.one_rpow]
  exact ⟨h, by rw [h]; norm_num⟩

/-- Claim C2, amended.  In `generator.ts`, `calculateFontSize` never exceeds
`fontSize.min + 0.8 × (fontSize.max − fontSize.min)` whenever
`fontSize.min < fontSize.max`; the advanced and multi-format variants do not
apply this clamp and return `fontSize.max` for the highest-frequency word. -/
theorem claimC2 (frequency minFreq maxFreq : ℝ) (r : FontSizeRange)
    (h : r.min < r.max) :
    calculateFontSize frequency minFreq maxFreq r ≤ r.min + 0.8 * (r.max - r.min) := by
  rw [calculateFontSize]
  split
  · linarith
  · simp only
    refine le_trans (min_le_right _ _) ?_
    linarith

/-- Claim C2, witness: the amended bound at frequency 2 of range `{1,3}` and
the default font range `{16, 66}`. -/
theorem claimC2_witness :
    (16:ℝ) < 66 ∧
    calculateFontSize 2 1 3 ⟨16, 66⟩ ≤ 16 + 0.8 * (66 - 16) :=
  ⟨by norm_num, claimC2 2 1 3 ⟨16, 66⟩ (by norm_num)⟩

/-! ### Bounding box estimation (`generator.ts` lines 358-383) -/

/-- The CJK test `/[一-鿿]/` of `estimateTextDimensions`. -/
def isCJKChar (c : Char) : Bool :=
  0x4e00 ≤ c.toNat && c.toNat ≤ 0x9fff

/-- The accumulated base width of a text: a CJK character contributes a full
`fontSize`, every other character `0.6 × fontSize`. -/
noncomputable def baseTextWidth (text : String) (fontSize : ℝ) : ℝ :=
  text.data.foldl
    (fun acc c => if isCJKChar c then acc + fontSize else acc + fontSize * 0.6) 0

/-- `estimateTextDimensions` from `generator.ts`: base box
`baseWidth × 1.2·fontSize`; for a non-zero angle, the axis-aligned bounding
box of the base box rotated by `|angle|` degrees. -/
noncomputable def estimateTextDimensions (text : String) (fontSize angle : ℝ) : ℝ × ℝ :=
  let baseWidth := baseTextWidth text fontSize
  let baseHeight := fontSize * 1.2
  if angle = 0 then (baseWidth, baseHeight)
  else
    let radians := |angle| * Real.pi / 180
    (|baseWidth * Real.cos radians| + |baseHeight * Real.sin radians|,
     |baseWidth * Real.sin radians| + |baseHeight * Real.cos radians|)

theorem baseTextWidth_nonneg (text : String) (fontSize : ℝ) (h : 0 ≤ fontSize) :
    0 ≤ baseTextWidth text fontSize := by
  rw [baseTextWidth]
  generalize text.data = l
  suffices H : ∀ (l : List Char) (acc : ℝ), 0 ≤ acc →
      0 ≤ l.foldl (fun acc c => if isCJKChar c then acc + fontSize else acc + fontSize * 0.6) acc from
    H l 0 le_rfl
  intro l
  induction l with
  | nil => intro acc hacc; exact hacc
  | cons c cs ih =>
    intro acc hacc
    rw [List.foldl_cons]
    by_cases hc : isCJKChar c
    · rw [if_pos hc]; exact ih _ (by linarith)
    · rw [if_neg hc]; exact ih _ (by linarith)

/-- Claim C8.  For angle 0 the estimator returns exactly
`(baseWidth, 1.2 × fontSize)` with no trigonometry; for any non-zero angle it
returns the rotated-rectangle formula at `θ = |angle|·π/180`; and at angle 90
width and height are exactly swapped (exactly in real arithmetic, hence
within floating tolerance). -/
theorem claimC8 (text : String) (fontSize : ℝ) (h : 0 ≤ fontSize) :
    estimateTextDimensions text fontSize 0
      = (baseTextWidth text fontSize, fontSize * 1.2) ∧
    (∀ angle : ℝ, angle ≠ 0 → estimateTextDimensions text fontSize angle
      = (|baseTextWidth text fontSize * Real.cos (|angle| * Real.pi / 180)|
          + |fontSize * 1.2 * Real.sin (|angle| * Real.pi / 180)|,
         |baseTextWidth text fontSize * Real.sin (|angle| * Real.pi / 180)|
          + |fontSize * 1.2 * Real.cos (|angle| * Real.pi / 180)|)) ∧
    (estimateTextDimensions text fontSize 90).1
      = (estimateTextDimensions text fontSize 0).2 ∧
    (estimateTextDimensions text fontSize 90).2
      = (estimateTextDimensions text fontSize 0).1 := by
  have hbw : 0 ≤ baseTextWidth text fontSize := baseTextWidth_nonneg text fontSize h
  have hbh : 0 ≤ fontSize * 1.2 := by linarith
  have hrad : |(90:ℝ)| * Real.pi / 180 = Real.pi / 2 := by
    rw [abs_of_pos (by norm_num : (0:ℝ) < 90)]; ring
  have h90 : estimateTextDimensions text fontSize 90
      = (fontSize * 1.2, baseTextWidth text fontSize) := by
    rw [estimateTextDimensions, if_neg (by norm_num : (90:ℝ) ≠ 0)]
    simp only [hrad, Real.cos_pi_div_two, Real.sin_pi_div_two, mul_zero, mul_one,
      abs_zero, zero_add, add_zero, abs_of_nonneg hbw, abs_of_nonneg hbh]
  have h0 : estimateTextDimensions text fontSize 0
      = (baseTextWidth text fontSize, fontSize * 1.2) := by
    rw [estimateTextDimensions, if_pos rfl]
  refine ⟨h0, ?_, ?_, ?_⟩
  · intro angle hangle
    rw [estimateTextDimensions, if_neg hangle]
  · rw [h90, h0]
  · rw [h90, h0]

/-- Claim C8, witness: the theorem applied to the text `ab` at font size 10. -/
theorem claimC8_witness :
    (0:ℝ) ≤ 10 ∧
    (estimateTextDimensions "ab" 10 0 = (baseTextWidth "ab" 10, 10 * 1.2) ∧
     (∀ angle : ℝ, angle ≠ 0 → estimateTextDimensions "ab" 10 angle
      = (|baseTextWidth "ab" 10 * Real.cos (|angle| * Real.pi / 180)|
          + |10 * 1.2 * Real.sin (|angle| * Real.pi / 180)|,
         |baseTextWidth "ab" 10 * Real.sin (|angle| * Real.pi / 180)|
          + |10 * 1.2 * Real.cos (|angle| * Real.pi / 180)|)) ∧
     (estimateTextDimensions "ab" 10 90).1 = (estimateTextDimensions "ab" 10 0).2 ∧
     (estimateTextDimensions "ab" 10 90).2 = (estimateTextDimensions "ab" 10 0).1) :=
  ⟨by norm_num, claimC8 "ab" 10 (by norm_num)⟩

/-! ### XML escaping and SVG assembly (`generator.ts` lines 539-593) -/

/-- Global single-character replacement, the model of
`text.replace(/c/g, rep)` for a one-character pattern: each occurrence is
replaced independently. -/
def replaceChar (pat : Char) (rep : List Char) (s : List Char) : List Char :=
  s.flatMap fun ch => if ch = pat then rep else [ch]

/-- `escapeXml` from `generator.ts`: five sequential global replacements, in
the order ampersand, less-than, greater-than, double quote, apostrophe. -/
def escapeXml (text : List Char) : List Char :=
  replaceChar '\x27' ['&', '#', '3', '9', ';']
    (replaceChar '"' ['&', 'q', 'u', 'o', 't', ';']
      (replaceChar '>' ['&', 'g', 't', ';']
        (replaceChar '<' ['&', 'l', 't', ';']
          (replaceChar '&' ['&', 'a', 'm', 'p', ';'] text))))

/-- The per-character escape map described by the specification: each of the
five XML-reserved characters becomes its entity, all others are unchanged. -/
def escChar (c : Char) : List Char :=
  if c = '&' then ['&', 'a', 'm', 'p', ';']
  else if c = '<' then ['&', 'l', 't', ';']
  else if c = '>' then ['&', 'g', 't', ';']
  else if c = '"' then ['&', 'q', 'u', 'o', 't', ';']
  else if c = '\x27' then ['&', '#', '3', '9', ';']
  else [c]

theorem escapeXml_append (l₁ l₂ : List Char) :
    escapeXml (l₁ ++ l₂) = escapeXml l₁ ++ escapeXml l₂ := by
  simp [escapeXml, replaceChar, List.flatMap_append]

theorem escapeXml_singleton (c : Char) : escapeXml [c] = escChar c := by
  by_cases h1 : c = '&'
  · subst h1; rfl
  by_cases h2 : c = '<'
  · subst h2; rfl
  by_cases h3 : c = '>'
  · subst h3; rfl
  by_cases h4 : c = '"'
  · subst h4; rfl
  by_cases h5 : c = '\x27'
  · subst h5; rfl
  simp [escapeXml, replaceChar, escChar, h1, h2, h3, h4, h5]

/-- The five sequential replacements of `escapeXml` act like the simultaneous
per-character escape map: entities introduced by one pass are never re-escaped
by a later pass. -/
theorem escapeXml_eq_flatMap (s : List Char) : escapeXml s = s.flatMap escChar := by
  induction s with
  | nil => rfl
  | cons c cs ih =>
    have h : c :: cs = [c] ++ cs := rfl
    rw [h, escapeXml_append, escapeXml_singleton, List.flatMap_append, ih]
    simp

theorem escChar_no_reserved (a c : Char) (hc : c ∈ escChar a) :
    c ≠ '<' ∧ c ≠ '>' ∧ c ≠ '"' ∧ c ≠ '\x27' := by
  by_cases h1 : a = '&'
  · subst h1; simp [escChar] at hc; rcases hc with rfl | rfl | rfl | rfl | rfl <;> decide
  by_cases h2 : a = '<'
  · subst h2; simp [escChar, h1] at hc
    rcases hc with rfl | rfl | rfl | rfl <;> decide
  by_cases h3 : a = '>'
  · subst h3; simp [escChar, h1, h2] at hc
    rcases hc with rfl | rfl | rfl | rfl <;> decide
  by_cases h4 : a = '"'
  · subst h4; simp [escChar, h1, h2, h3] at hc
    rcases hc with rfl | rfl | rfl | rfl | rfl | rfl <;> decide
  by_cases h5 : a = '\x27'
  · subst h5; simp [escChar, h1, h2, h3, h4] at hc
    rcases hc with rfl | rfl | rfl | rfl | rfl <;> decide
  · simp [escChar, h1, h2, h3, h4, h5] at hc
    subst hc
    exact ⟨h2, h3, h4, h5⟩

/-- A glyph box: `WordItem` from `generator.ts`. -/
structure WordItem where
  text : String
  frequency : Nat
  fontSize : ℝ
  color : String
  angle : ℝ
  x : ℝ
  y : ℝ
  width : ℝ
  height : ℝ

/-- JavaScript `Array.prototype.join(sep)`. -/
def joinSep (sep : List Char) : List (List Char) → List Char
  | [] => []
  | [x] => x
  | x :: y :: xs => x ++ sep ++ joinSep sep (y :: xs)

/-- One `<text>` element of the SVG output (`generator.ts` lines 540-556).
Numbers are serialized by an abstract `showNum` (JavaScript float-to-string
conversion is not modelled). -/
noncomputable def svgTextElement (showNum : ℝ → List Char) (word : WordItem) : List Char :=
  let x := word.x + word.width / 2
  let y := word.y + word.height / 2
  let fontWeight : String := if word.frequency > 3 then "bold" else "normal"
  "<text x=\"".data ++ showNum x ++ "\" y=\"".data ++ showNum y
    ++ "\"\n font-family=\"\x27Microsoft YaHei\x27, \x27PingFang SC\x27, \x27SimHei\x27, Arial, sans-serif\"\n font-size=\"".data
    ++ showNum word.fontSize
    ++ "\"\n fill=\"".data ++ word.color.data
    ++ "\"\n text-anchor=\"middle\"\n dominant-baseline=\"middle\"\n font-weight=\"".data
    ++ fontWeight.data
    ++ "\"\n transform=\"rotate(".data ++ showNum word.angle ++ [' '] ++ showNum x
    ++ [' '] ++ showNum y ++ ")\">\n".data
    ++ escapeXml word.text.data
    ++ "\n</text>".data

/-- `generateSVG` from `generator.ts`: XML header, svg element with a styled
background, then the text elements joined by newlines. -/
noncomputable def generateSVG (words : List WordItem) (cfgWidth cfgHeight : ℝ)
    (showNum : ℝ → List Char) : List Char :=
  let svgElements := joinSep ['\n'] (words.map (svgTextElement showNum))
  "<?xml version=\"1.0\" encoding=\"UTF-8\"?>\n<svg width=\"".data
    ++ showNum cfgWidth ++ "\" height=\"".data ++ showNum cfgHeight
    ++ "\"\n xmlns=\"http://www.w3.org/2000/svg\"\n viewBox=\"0 0 ".data
    ++ showNum cfgWidth ++ [' '] ++ showNum cfgHeight
    ++ "\">\n <defs>\n <style>\n <![CDATA[\n text \x7b\n font-family: \x27Microsoft YaHei\x27, \x27PingFang SC\x27, \x27SimHei\x27, Arial, sans-serif;\n user-select: none;\n \x7d\n svg \x7b\n background-color: white;\n \x7d\n ]]>\n </style>\n </defs>\n <rect width=\"100%\" height=\"100%\" fill=\"white\"/>\n ".data
    ++ svgElements
    ++ "\n</svg>".data

theorem mem_joinSep_infix (sep : List Char) (xs : List (List Char)) (x : List Char)
    (hx : x ∈ xs) : x.IsInfix (joinSep sep xs) := by
  induction xs with
  | nil => simp at hx
  | cons a ys ih =>
    rcases List.mem_cons.mp hx with rfl | hmem
    · cases ys with
      | nil => exact List.infix_refl x
      | cons b zs =>
        exact ⟨[], sep ++ joinSep sep (b :: zs), by simp [joinSep]⟩
    · cases ys with
      | nil => simp at hmem
      | cons b zs =>
        have h1 : (joinSep sep (b :: zs)).IsInfix (joinSep sep (a :: b :: zs)) :=
          ⟨a ++ sep, [], by simp [joinSep]⟩
        exact (ih hmem).trans h1

theorem escape_infix_svgTextElement (showNum : ℝ → List Char) (w : WordItem) :
    (escapeXml w.text.data).IsInfix (svgTextElement showNum w) := by
  refine ⟨"<text x=\"".data ++ showNum (w.x + w.width / 2) ++ "\" y=\"".data
    ++ showNum (w.y + w.height / 2)
    ++ "\"\n font-family=\"\x27Microsoft YaHei\x27, \x27PingFang SC\x27, \x27SimHei\x27, Arial, sans-serif\"\n font-size=\"".data
    ++ showNum w.fontSize
    ++ "\"\n fill=\"".data ++ w.color.data
    ++ "\"\n text-anchor=\"middle\"\n dominant-baseline=\"middle\"\n font-weight=\"".data
    ++ (if w.frequency > 3 then ("bold" : String) else "normal").data
    ++ "\"\n transform=\"rotate(".data ++ showNum w.angle ++ [' ']
    ++ showNum (w.x + w.width / 2) ++ [' '] ++ showNum (w.y + w.height / 2)
    ++ ")\">\n".data, "\n</text>".data, ?_⟩
  simp only [svgTextElement, List.append_assoc]

set_option maxRecDepth 8000 in
/-- Claim C9.  `escapeXml` escapes the five XML-reserved characters: the word
`A&B<C>` becomes `A&amp;B&lt;C&gt;`; the five sequential replacements act as
the simultaneous per-character escape map, so no bare `< > " '` character
survives in the escaped text; and the escaped text of every input word is
embedded in the emitted SVG document. -/
theorem claimC9 :
    escapeXml "A&B<C>".data = "A&amp;B&lt;C&gt;".data ∧
    (∀ s : List Char, escapeXml s = s.flatMap escChar) ∧
    (∀ s : List Char, ∀ c ∈ escapeXml s,
      c ≠ '<' ∧ c ≠ '>' ∧ c ≠ '"' ∧ c ≠ '\x27') ∧
    (∀ (words : List WordItem) (cfgW cfgH : ℝ) (showNum : ℝ → List Char),
      ∀ w ∈ words, (escapeXml w.text.data).IsInfix (generateSVG words cfgW cfgH showNum)) := by
  refine ⟨by decide, escapeXml_eq_flatMap, ?_, ?_⟩
  · intro s c hc
    rw [escapeXml_eq_flatMap] at hc
    obtain ⟨a, _, ha⟩ := List.mem_flatMap.mp hc
    exact escChar_no_reserved a c ha
  · intro words cfgW cfgH showNum w hw
    have h1 : (escapeXml w.text.data).IsInfix (svgTextElement showNum w) :=
      escape_infix_svgTextElement showNum w
    have h2 : (svgTextElement showNum w).IsInfix
        (joinSep ['\n'] (words.map (svgTextElement showNum))) :=
      mem_joinSep_infix _ _ _ (List.mem_map_of_mem _ hw)
    have h3 : (joinSep ['\n'] (words.map (svgTextElement showNum))).IsInfix
        (generateSVG words cfgW cfgH showNum) := by
      refine ⟨"<?xml version=\"1.0\" encoding=\"UTF-8\"?>\n<svg width=\"".data
        ++ showNum cfgW ++ "\" height=\"".data ++ showNum cfgH
        ++ "\"\n xmlns=\"http://www.w3.org/2000/svg\"\n viewBox=\"0 0 ".data
        ++ showNum cfgW ++ [' '] ++ showNum cfgH
        ++ "\">\n <defs>\n <style>\n <![CDATA[\n text \x7b\n font-family: \x27Microsoft YaHei\x27, \x27PingFang SC\x27, \x27SimHei\x27, Arial, sans-serif;\n user-select: none;\n \x7d\n svg \x7b\n background-color: white;\n \x7d\n ]]>\n </style>\n </defs>\n <rect width=\"100%\" height=\"100%\" fill=\"white\"/>\n ".data,
        "\n</svg>".data, ?_⟩
      simp only [generateSVG, List.append_assoc]
    exact (h1.trans h2).trans h3

set_option maxRecDepth 8000 in
set_option maxHeartbeats 1000000 in
/-- Claim C9, witness: the no-reserved-characters and embedding conjuncts
evaluated on the concrete word `A&B<C>`. -/
theorem claimC9_witness :
    'A' ∈ escapeXml "A&B<C>".data ∧ 'A' ≠ '<' ∧
    (escapeXml "A&B<C>".data).IsInfix
      (generateSVG [⟨"A&B<C>", 1, 10, "#FF4444", 0, 0, 0, 10, 12⟩] 800 600
        (fun _ => [])) :=
  ⟨by decide, (claimC9.2.2.1 "A&B<C>".data 'A' (by decide)).1,
    claimC9.2.2.2 [⟨"A&B<C>", 1, 10, "#FF4444", 0, 0, 0, 10, 12⟩] 800 600
      (fun _ => []) _ (List.mem_singleton_self _)⟩

/-! ### Angle grid generation and option validation
(`generator.ts` lines 316-348 and 657-688) -/

/-- The `angleRange: {min, max}` configuration record. -/
structure AngleRange where
  min : ℝ
  max : ℝ

/-- The loop body of `generateAngles`:
`for (let angle = min; angle <= max; angle += step) angles.push(angle)`,
with an explicit fuel so that the (for non-positive step possibly diverging)
loop is a total function; `none` means the fuel ran out before the loop
condition failed. -/
noncomputable def anglesLoop (mx st : ℝ) : Nat → ℝ → Option (List ℝ)
  | 0, angle => if angle ≤ mx then none else some []
  | n + 1, angle =>
    if angle ≤ mx then (anglesLoop mx st n (angle + st)).map (fun l => angle :: l)
    else some []

/-- `generateAngles` from `generator.ts`: run the loop, then return `[0]` if
no grid point was collected. -/
noncomputable def generateAngles (mn mx st : ℝ) (fuel : Nat) : Option (List ℝ) :=
  (anglesLoop mx st fuel mn).map (fun angles => if angles.length > 0 then angles else [0])

/-- The angle grid as used by the rest of the pipeline, with fuel sufficient
for every positive step. -/
noncomputable def generateAnglesTotal (mn mx st : ℝ) : List ℝ :=
  (generateAngles mn mx st ((⌈(mx - mn) / st⌉).toNat + 1)).getD [0]

/-- `calculateAngle` from `generator.ts` (lines 316-334).  `Math.random()` is
modelled by an explicit `rand` input; `xs[i] || 0` and the in-range access
`xs[i]` are modelled by `getD i 0`. -/
noncomputable def calculateAngle (rand : ℝ) (index : Nat)
    (angleRange : AngleRange) (angleStep : ℝ) : ℝ :=
  let angles := generateAnglesTotal angleRange.min angleRange.max angleStep
  if index < 5 then 0
  else if index < 15 then
    let smallAngles := angles.filter (fun a => |a| ≤ 30)
    smallAngles.getD (⌊rand * smallAngles.length⌋).toNat 0
  else
    angles.getD (⌊rand * angles.length⌋).toNat 0

/-- The partial `WordCloudOptions` object validated by `validateOptions`. -/
structure WordCloudOptions where
  theme : Option String
  shape : Option String
  wordGap : Option ℝ
  fontSize : Option FontSizeRange
  angleRange : Option AngleRange
  angleStep : Option ℝ
  outputPath : Option String
  width : Option ℝ
  height : Option ℝ

/-- The supported theme names (`getSupportedThemes`). -/
def supportedThemes : List String :=
  ["default", "colorful", "warm", "cool", "nature", "business"]

/-- `validateOptions` from `generator.ts` (lines 657-688): checks width,
height, font sizes and theme — and nothing else; in particular `angleStep` is
never inspected.  `options.width && ...` tests JavaScript truthiness, so an
absent field and the number 0 both skip their check. -/
noncomputable def validateOptions (o : WordCloudOptions) : Bool × List String :=
  let errors0 : List String := []
  let errors1 := match o.width with
    | some w => if w ≠ 0 ∧ (w < 100 ∨ w > 5000)
        then errors0 ++ ["width must be 100-5000 px"] else errors0
    | none => errors0
  let errors2 := match o.height with
    | some h => if h ≠ 0 ∧ (h < 100 ∨ h > 5000)
        then errors1 ++ ["height must be 100-5000 px"] else errors1
    | none => errors1
  let errors3 := match o.fontSize with
    | some r =>
      (errors2 ++ (if r.min < 8 ∨ r.min > 200 then ["fontSize.min must be 8-200 px"] else [])
        ++ (if r.max < 8 ∨ r.max > 200 then ["fontSize.max must be 8-200 px"] else [])
        ++ (if r.min ≥ r.max then ["fontSize.min must be below fontSize.max"] else []))
    | none => errors2
  let errors4 := match o.theme with
    | some t => if t ≠ "" ∧ ¬supportedThemes.contains t
        then errors3 ++ ["unsupported theme"] else errors3
    | none => errors3
  (errors4.length = 0, errors4)

theorem anglesLoop_isSome (mx st : ℝ) (fuel : Nat) (a : ℝ)
    (h : mx < a + fuel * st) : (anglesLoop mx st fuel a).isSome := by
  induction fuel generalizing a with
  | zero =>
    rw [anglesLoop, if_neg (by push_cast at h; exact not_le.mpr (by linarith))]
    rfl
  | succ n ih =>
    rw [anglesLoop]
    by_cases ha : a ≤ mx
    · rw [if_pos ha]
      have h' : mx < (a + st) + n * st := by push_cast at h ⊢; linarith
      obtain ⟨l, hl⟩ := Option.isSome_iff_exists.mp (ih _ h')
      rw [hl]
      rfl
    · rw [if_neg ha]
      rfl

theorem anglesLoop_none_of_nonpos (mx st : ℝ) (hst : st ≤ 0) (fuel : Nat) (a : ℝ)
    (ha : a ≤ mx) : anglesLoop mx st fuel a = none := by
  induction fuel generalizing a with
  | zero => rw [anglesLoop, if_pos ha]
  | succ n ih =>
    rw [anglesLoop, if_pos ha, ih (a + st) (by linarith)]
    rfl

/-- Claim C10.  With a positive `angleStep` the angle-grid loop terminates
(some finite fuel suffices) and produces a non-empty list (falling back to
`[0]` when the range contains no grid point, in particular whenever
`max < min`); with a non-positive step and `min ≤ max` the loop never
finishes, whatever the fuel; and `validateOptions` never inspects
`angleStep`, so this termination precondition is not validated. -/
theorem claimC10 :
    (∀ mn mx st : ℝ,
      (0 < st → ∃ fuel l, generateAngles mn mx st fuel = some l ∧ l ≠ []) ∧
      (mx < mn → ∀ fuel, generateAngles mn mx st fuel = some [0]) ∧
      (st ≤ 0 → mn ≤ mx → ∀ fuel, generateAngles mn mx st fuel = none)) ∧
    (∀ (o : WordCloudOptions) (s s' : Option ℝ),
      validateOptions { o with angleStep := s }
        = validateOptions { o with angleStep := s' }) := by
  constructor
  · intro mn mx st
    refine ⟨?_, ?_, ?_⟩
    · intro hst
      obtain ⟨n, hn⟩ := exists_nat_gt ((mx - mn) / st)
      have hfuel : mx < mn + n * st := by
        rw [div_lt_iff₀ hst] at hn
        linarith
      obtain ⟨l, hl⟩ := Option.isSome_iff_exists.mp (anglesLoop_isSome mx st n mn hfuel)
      refine ⟨n, if l.length > 0 then l else [0], ?_, ?_⟩
      · rw [generateAngles, hl]; rfl
      · by_cases hlen : l.length > 0
        · rw [if_pos hlen]
          exact List.ne_nil_of_length_pos hlen
        · rw [if_neg hlen]
          simp
    · intro hmx fuel
      have hloop : anglesLoop mx st fuel mn = some [] := by
        cases fuel <;> rw [anglesLoop, if_neg (not_le.mpr hmx)]
      rw [generateAngles, hloop]
      rfl
    · intro hst hle fuel
      rw [generateAngles, anglesLoop_none_of_nonpos mx st hst fuel mn hle]
      rfl
  · intro o s s'
    rfl

/-- Claim C10, witness: the default configuration grid `-45..45` step `15`
terminates non-empty; the degenerate grid `0..10` step `-1` exhausts any
fuel. -/
theorem claimC10_witness :
    ((0:ℝ) < 15 ∧ ∃ fuel l, generateAngles (-45) 45 15 fuel = some l ∧ l ≠ []) ∧
    ((-1:ℝ) ≤ 0 ∧ (0:ℝ) ≤ 10 ∧ ∀ fuel, generateAngles 0 10 (-1) fuel = none) :=
  ⟨⟨by norm_num, (claimC10.1 (-45) 45 15).1 (by norm_num)⟩,
   ⟨by norm_num, by norm_num,
    (claimC10.1 0 10 (-1)).2.2 (by norm_num) (by norm_num)⟩⟩

/-! ### The spatial packer (`generator.ts` lines 392-530) -/

/-- An occupied region `{x, y, width, height}`. -/
structure Rect where
  x : ℝ
  y : ℝ
  width : ℝ
  height : ℝ

/-- `isOverlapping` from `generator.ts` (lines 520-530): two axis-aligned
rectangles overlap unless one lies strictly beyond the other. -/
def isOverlapping (area1 area2 : Rect) : Prop :=
  ¬(area1.x + area1.width < area2.x ∨
    area2.x + area2.width < area1.x ∨
    area1.y + area1.height < area2.y ∨
    area2.y + area2.height < area1.y)

/-- The full layout configuration, `Required<WordCloudOptions>` from
`generator.ts`. -/
structure LayoutConfig where
  theme : String
  shape : String
  wordGap : ℝ
  fontSize : FontSizeRange
  angleRange : AngleRange
  angleStep : ℝ
  outputPath : String
  width : ℝ
  height : ℝ

/-- The `defaultOptions` of `generator.ts` (lines 65-75). -/
def defaultConfig : LayoutConfig :=
  ⟨"default", "rectangle", 3, ⟨16, 66⟩, ⟨-45, 45⟩, 15, "./wordcloud.svg", 800, 600⟩

/-- The clamp applied to a placed word (`generator.ts` lines 418-419):
coordinates are forced into `[wordGap, canvasDim − itemDim − wordGap]`. -/
noncomputable def clampPos (cfg : LayoutConfig) (w : WordItem) (x y : ℝ) : ℝ × ℝ :=
  (max cfg.wordGap (min (cfg.width - w.width - cfg.wordGap) x),
   max cfg.wordGap (min (cfg.height - w.height - cfg.wordGap) y))

/-- The occupied region recorded after placement (`generator.ts` lines
422-428), padded by `max(wordGap, fontSize / 10)` on every side. -/
noncomputable def recordedArea (cfg : LayoutConfig) (w : WordItem) : Rect :=
  let gap := max cfg.wordGap (w.fontSize / 10)
  ⟨w.x - gap, w.y - gap, w.width + gap * 2, w.height + gap * 2⟩

/-- The candidate region tested during the spiral search (`generator.ts`
lines 490-496), padded by `max(wordGap, fontSize / 12)` on every side —
note: a smaller padding than the one later recorded. -/
noncomputable def candidateArea (cfg : LayoutConfig) (w : WordItem) (x y : ℝ) : Rect :=
  let gap := max cfg.wordGap (w.fontSize / 12)
  ⟨x - gap, y - gap, w.width + gap * 2, w.height + gap * 2⟩

/-- The candidate position at a given radius and angle index
(`generator.ts` lines 467-476). -/
noncomputable def spiralCandidate (cX cY radius : ℝ) (numAngles i : Nat)
    (w : WordItem) : ℝ × ℝ :=
  let angle := (i * 2 * Real.pi) / numAngles
  let ellipseRatioX := 1 + Real.sin angle * 0.1
  let ellipseRatioY := 1 + Real.cos angle * 0.1
  (cX + radius * Real.cos angle * ellipseRatioX - w.width / 2,
   cY + radius * Real.sin angle * ellipseRatioY - w.height / 2)

open Classical in
/-- One candidate test of the spiral search (`generator.ts` lines 467-505):
reject a candidate outside the margin-10 canvas frame, then reject it if its
padded region overlaps any previously recorded region. -/
noncomputable def tryCandidate (cfg : LayoutConfig) (occupied : List Rect)
    (w : WordItem) (cX cY radius : ℝ) (numAngles i : Nat) : Option (ℝ × ℝ) :=
  let c := spiralCandidate cX cY radius numAngles i w
  if c.1 < 10 ∨ c.2 < 10 ∨
      c.1 + w.width > cfg.width - 10 ∨ c.2 + w.height > cfg.height - 10 then none
  else if ∃ area ∈ occupied, isOverlapping (candidateArea cfg w c.1 c.2) area then none
  else some c

/-- All angle indices tried at one radius, in increasing order
(`generator.ts` lines 464-506). -/
noncomputable def tryAnglesAt (cfg : LayoutConfig) (occupied : List Rect)
    (w : WordItem) (cX cY radius : ℝ) : Option (ℝ × ℝ) :=
  let numAngles := max 8 (⌊radius / 8⌋).toNat
  (List.range numAngles).findSome? fun i =>
    tryCandidate cfg occupied w cX cY radius numAngles i

/-- The radius loop of the spiral search
(`for (let radius = startRadius; radius < maxRadius; radius += radiusStep)`),
with explicit fuel; the fuel chosen in `findPositionOrderedSpiral` always
suffices, since the step is at least 2. -/
noncomputable def radiusLoop (cfg : LayoutConfig) (occupied : List Rect)
    (w : WordItem) (cX cY maxRadius radiusStep : ℝ) : Nat → ℝ → Option (ℝ × ℝ)
  | 0, _ => none
  | n + 1, radius =>
    if radius < maxRadius then
      match tryAnglesAt cfg occupied w cX cY radius with
      | some c => some c
      | none => radiusLoop cfg occupied w cX cY maxRadius radiusStep n (radius + radiusStep)
    else none

/-- `findPositionOrderedSpiral` from `generator.ts` (lines 448-510):
`some (x, y)` models `return true` with the word mutated to `(x, y)`;
`none` models `return false`. -/
noncomputable def findPositionOrderedSpiral (w : WordItem) (cX cY : ℝ)
    (occupied : List Rect) (cfg : LayoutConfig) : Option (ℝ × ℝ) :=
  let maxRadius := min cfg.width cfg.height / 2 - max w.width w.height
  let radiusStep := max 2 (w.fontSize / 8)
  let startRadius := max (w.fontSize / 2) 20
  radiusLoop cfg occupied w cX cY maxRadius radiusStep
    ((⌈(maxRadius - startRadius) / radiusStep⌉).toNat + 1) startRadius

/-- The stable descending sort by font size
(`[...wordItems].sort((a, b) => b.fontSize - a.fontSize)`). -/
noncomputable def sortWords (items : List WordItem) : List WordItem :=
  List.insertionSort (fun a b => b.fontSize ≤ a.fontSize) items

/-- The loop of `smartLayoutWords` over all words after the first: place via
the spiral search, clamp, then record the padded occupied region.  Returns
the placed words and their recorded regions, in placement order. -/
noncomputable def layoutRest (cfg : LayoutConfig) (cX cY : ℝ) :
    List Rect → List WordItem → List WordItem × List Rect
  | _, [] => ([], [])
  | occupied, w :: rest =>
    match findPositionOrderedSpiral w cX cY occupied cfg with
    | none => layoutRest cfg cX cY occupied rest
    | some c =>
      let p := clampPos cfg w c.1 c.2
      let w' := { w with x := p.1, y := p.2 }
      let area := recordedArea cfg w'
      let r := layoutRest cfg cX cY (occupied ++ [area]) rest
      (w' :: r.1, area :: r.2)

/-- `smartLayoutWords` from `generator.ts` (lines 392-436): sort by
descending font size, place the first word centered (always), then place each
remaining word by the ordered spiral search; after each placement, clamp into
the `wordGap` frame and record the padded occupied region.  The function
returns both the placed words and the recorded `occupiedAreas` list. -/
noncomputable def smartLayoutWords (wordItems : List WordItem)
    (cfg : LayoutConfig) : List WordItem × List Rect :=
  let cX := cfg.width / 2
  let cY := cfg.height / 2
  match sortWords wordItems with
  | [] => ([], [])
  | w :: rest =>
    let p := clampPos cfg w (cX - w.width / 2) (cY - w.height / 2)
    let w0 := { w with x := p.1, y := p.2 }
    let a0 := recordedArea cfg w0
    let r := layoutRest cfg cX cY [a0] rest
    (w0 :: r.1, a0 :: r.2)

/-- Claim C4.  Whenever the canvas (minus the `wordGap` frame) can hold the
first item, the first processed item — the head of the descending-font-size
sort — is placed exactly centered, whatever else is in the list. -/
theorem claimC4 (items : List WordItem) (cfg : LayoutConfig)
    (w : WordItem) (rest : List WordItem)
    (hsort : sortWords items = w :: rest)
    (hw : w.width ≤ cfg.width - 2 * cfg.wordGap)
    (hh : w.height ≤ cfg.height - 2 * cfg.wordGap) :
    ∃ ws, (smartLayoutWords items cfg).1
      = { w with x := cfg.width / 2 - w.width / 2,
                 y := cfg.height / 2 - w.height / 2 } :: ws := by
  have hx : max cfg.wordGap
      (min (cfg.width - w.width - cfg.wordGap) (cfg.width / 2 - w.width / 2))
      = cfg.width / 2 - w.width / 2 := by
    rw [min_eq_right (by linarith), max_eq_right (by linarith)]
  have hy : max cfg.wordGap
      (min (cfg.height - w.height - cfg.wordGap) (cfg.height / 2 - w.height / 2))
      = cfg.height / 2 - w.height / 2 := by
    rw [min_eq_right (by linarith), max_eq_right (by linarith)]
  refine ⟨(layoutRest cfg (cfg.width / 2) (cfg.height / 2)
    [recordedArea cfg { w with x := cfg.width / 2 - w.width / 2,
                               y := cfg.height / 2 - w.height / 2 }] rest).1, ?_⟩
  simp only [smartLayoutWords, hsort, clampPos, hx, hy]

/-- Claim C4, witness: a single 30 × 12 item on the default canvas is placed
at `(400 − 15, 300 − 6)`. -/
theorem claimC4_witness :
    sortWords [⟨"hi", 1, 10, "#FF4444", 0, 0, 0, 30, 12⟩]
      = [⟨"hi", 1, 10, "#FF4444", 0, 0, 0, 30, 12⟩] ∧
    (30:ℝ) ≤ 800 - 2 * 3 ∧ (12:ℝ) ≤ 600 - 2 * 3 ∧
    ∃ ws, (smartLayoutWords [⟨"hi", 1, 10, "#FF4444", 0, 0, 0, 30, 12⟩] defaultConfig).1
      = ⟨"hi", 1, 10, "#FF4444", 0, (800:ℝ) / 2 - 30 / 2, (600:ℝ) / 2 - 12 / 2, 30, 12⟩ :: ws :=
  ⟨rfl, by norm_num, by norm_num,
    claimC4 [⟨"hi", 1, 10, "#FF4444", 0, 0, 0, 30, 12⟩] defaultConfig
      ⟨"hi", 1, 10, "#FF4444", 0, 0, 0, 30, 12⟩ [] rfl
      (by norm_num [defaultConfig]) (by norm_num [defaultConfig])⟩

theorem tryCandidate_bounds (cfg : LayoutConfig) (occupied : List Rect)
    (w : WordItem) (cX cY radius : ℝ) (numAngles i : Nat) (p : ℝ × ℝ)
    (h : tryCandidate cfg occupied w cX cY radius numAngles i = some p) :
    10 ≤ p.1 ∧ 10 ≤ p.2 ∧
    p.1 + w.width ≤ cfg.width - 10 ∧ p.2 + w.height ≤ cfg.height - 10 := by
  simp only [tryCandidate] at h
  split_ifs at h with h1 h2
  push_neg at h1
  injection h with h
  rw [← h]
  exact h1

theorem tryAnglesAt_bounds (cfg : LayoutConfig) (occupied : List Rect)
    (w : WordItem) (cX cY radius : ℝ) (p : ℝ × ℝ)
    (h : tryAnglesAt cfg occupied w cX cY radius = some p) :
    10 ≤ p.1 ∧ 10 ≤ p.2 ∧
    p.1 + w.width ≤ cfg.width - 10 ∧ p.2 + w.height ≤ cfg.height - 10 := by
  simp only [tryAnglesAt] at h
  obtain ⟨i, _, hi⟩ := List.exists_of_findSome?_eq_some h
  exact tryCandidate_bounds cfg occupied w cX cY radius _ i p hi

theorem radiusLoop_bounds (cfg : LayoutConfig) (occupied : List Rect)
    (w : WordItem) (cX cY maxRadius radiusStep : ℝ) (fuel : Nat) (radius : ℝ)
    (p : ℝ × ℝ)
    (h : radiusLoop cfg occupied w cX cY maxRadius radiusStep fuel radius = some p) :
    10 ≤ p.1 ∧ 10 ≤ p.2 ∧
    p.1 + w.width ≤ cfg.width - 10 ∧ p.2 + w.height ≤ cfg.height - 10 := by
  induction fuel generalizing radius with
  | zero => exact absurd h (by simp [radiusLoop])
  | succ n ih =>
    rw [radiusLoop] at h
    split_ifs at h
    · cases htry : tryAnglesAt cfg occupied w cX cY radius with
      | none => rw [htry] at h; exact ih _ h
      | some c =>
        rw [htry] at h
        injection h with h
        subst h
        exact tryAnglesAt_bounds cfg occupied w cX cY radius _ htry

theorem findPositionOrderedSpiral_bounds (w : WordItem) (cX cY : ℝ)
    (occupied : List Rect) (cfg : LayoutConfig) (p : ℝ × ℝ)
    (h : findPositionOrderedSpiral w cX cY occupied cfg = some p) :
    10 ≤ p.1 ∧ 10 ≤ p.2 ∧
    p.1 + w.width ≤ cfg.width - 10 ∧ p.2 + w.height ≤ cfg.height - 10 := by
  simp only [findPositionOrderedSpiral] at h
  exact radiusLoop_bounds cfg occupied w cX cY _ _ _ _ p h

theorem layoutRest_bounds (cfg : LayoutConfig) (hgap : cfg.wordGap ≤ 10)
    (cX cY : ℝ) (rest : List WordItem) :
    ∀ (occupied : List Rect), ∀ v ∈ (layoutRest cfg cX cY occupied rest).1,
      10 ≤ v.x ∧ 10 ≤ v.y ∧
      v.x + v.width ≤ cfg.width - 10 ∧ v.y + v.height ≤ cfg.height - 10 := by
  induction rest with
  | nil => intro occupied v hv; simp [layoutRest] at hv
  | cons w rest ih =>
    intro occupied v hv
    simp only [layoutRest] at hv
    cases hspir : findPositionOrderedSpiral w cX cY occupied cfg with
    | none =>
      rw [hspir] at hv
      exact ih occupied v hv
    | some c =>
      rw [hspir] at hv
      simp only at hv
      obtain ⟨h1, h2, h3, h4⟩ :=
        findPositionOrderedSpiral_bounds w cX cY occupied cfg c hspir
      have hx : max cfg.wordGap (min (cfg.width - w.width - cfg.wordGap) c.1) = c.1 := by
        rw [min_eq_right (by linarith), max_eq_right (by linarith)]
      have hy : max cfg.wordGap (min (cfg.height - w.height - cfg.wordGap) c.2) = c.2 := by
        rw [min_eq_right (by linarith), max_eq_right (by linarith)]
      rcases List.mem_cons.mp hv with rfl | hv'
      · simpa [clampPos, hx, hy] using ⟨h1, h2, h3, h4⟩
      · exact ih _ v hv'

/-- Claim C3, amended.  With `wordGap ≤ 10` (the spiral margin) and a first
item whose box fits inside the margin frame, every placed item lies within
`[10, canvasDim − 10]`: spiral-placed items pass the margin-10 check and the
`wordGap` clamp does not move them, and the first (centered) item stays
inside under the fitting precondition.  (Without that precondition the first
item is only clamped to the `wordGap` frame — see the counterexample.) -/
theorem claimC3 (items : List WordItem) (cfg : LayoutConfig)
    (w : WordItem) (rest : List WordItem)
    (hsort : sortWords items = w :: rest)
    (hgap : cfg.wordGap ≤ 10)
    (hw : w.width ≤ cfg.width - 2 * 10)
    (hh : w.height ≤ cfg.height - 2 * 10) :
    ∀ v ∈ (smartLayoutWords items cfg).1,
      10 ≤ v.x ∧ 10 ≤ v.y ∧
      v.x + v.width ≤ cfg.width - 10 ∧ v.y + v.height ≤ cfg.height - 10 := by
  intro v hv
  simp only [smartLayoutWords, hsort, clampPos] at hv
  have hx0 : max cfg.wordGap
      (min (cfg.width - w.width - cfg.wordGap) (cfg.width / 2 - w.width / 2))
      = cfg.width / 2 - w.width / 2 := by
    rw [min_eq_right (by linarith), max_eq_right (by linarith)]
  have hy0 : max cfg.wordGap
      (min (cfg.height - w.height - cfg.wordGap) (cfg.height / 2 - w.height / 2))
      = cfg.height / 2 - w.height / 2 := by
    rw [min_eq_right (by linarith), max_eq_right (by linarith)]
  rw [hx0, hy0] at hv
  rcases List.mem_cons.mp hv with rfl | hv'
  · refine ⟨by simp only; linarith, by simp only; linarith, ?_, ?_⟩
    · simp only; linarith
    · simp only; linarith
  · exact layoutRest_bounds cfg hgap _ _ rest _ v hv'

/-- Claim C3, witness: on the default canvas, every item placed for a single
30 × 12 word lies within the margin-10 frame. -/
theorem claimC3_witness :
    sortWords [⟨"hi", 1, 10, "#FF4444", 0, 0, 0, 30, 12⟩]
      = [⟨"hi", 1, 10, "#FF4444", 0, 0, 0, 30, 12⟩] ∧
    defaultConfig.wordGap ≤ 10 ∧ (30:ℝ) ≤ defaultConfig.width - 2 * 10 ∧
    (12:ℝ) ≤ defaultConfig.height - 2 * 10 ∧
    ∀ v ∈ (smartLayoutWords [⟨"hi", 1, 10, "#FF4444", 0, 0, 0, 30, 12⟩] defaultConfig).1,
      10 ≤ v.x ∧ 10 ≤ v.y ∧
      v.x + v.width ≤ defaultConfig.width - 10 ∧
      v.y + v.height ≤ defaultConfig.height - 10 :=
  ⟨rfl, by norm_num [defaultConfig], by norm_num [defaultConfig],
    by norm_num [defaultConfig],
    claimC3 [⟨"hi", 1, 10, "#FF4444", 0, 0, 0, 30, 12⟩] defaultConfig
      ⟨"hi", 1, 10, "#FF4444", 0, 0, 0, 30, 12⟩ [] rfl
      (by norm_num [defaultConfig]) (by norm_num [defaultConfig])
      (by norm_num [defaultConfig])⟩

/-- Claim C3, counterexample.  A single 796 × 80 word on the default 800 × 600
canvas is placed (the first item is always placed), but only clamped to the
`wordGap = 3` frame: it ends at `x = 3 < 10`, violating the margin bound, and
even `x + width = 799 > 800 − wordGap` violates the `wordGap` reading of the
bounds invariant. -/
theorem claimC3_cex :
    ¬(∀ v ∈ (smartLayoutWords [⟨"x", 1, 10, "#FF4444", 0, 0, 0, 796, 80⟩]
        defaultConfig).1,
      10 ≤ v.x ∧ 10 ≤ v.y ∧ v.x + v.width ≤ 800 - 10 ∧ v.y + v.height ≤ 600 - 10) ∧
    ¬(∀ v ∈ (smartLayoutWords [⟨"x", 1, 10, "#FF4444", 0, 0, 0, 796, 80⟩]
        defaultConfig).1,
      3 ≤ v.x ∧ 3 ≤ v.y ∧ v.x + v.width ≤ 800 - 3 ∧ v.y + v.height ≤ 600 - 3) := by
  have hlayout : (smartLayoutWords [⟨"x", 1, 10, "#FF4444", 0, 0, 0, 796, 80⟩]
      defaultConfig).1
      = [⟨"x", 1, 10, "#FF4444", 0, 3, 260, 796, 80⟩] := by
    have hsort : sortWords [(⟨"x", 1, 10, "#FF4444", 0, 0, 0, 796, 80⟩ : WordItem)]
        = [⟨"x", 1, 10, "#FF4444", 0, 0, 0, 796, 80⟩] := rfl
    simp only [smartLayoutWords, hsort, clampPos, layoutRest, defaultConfig]
    norm_num [min_def, max_def]
  rw [hlayout]
  constructor
  · intro hall
    have := (hall _ (List.mem_singleton_self _)).1
    simp only at this
    norm_num at this
  · intro hall
    have := (hall _ (List.mem_singleton_self _)).2.2.1
    simp only at this
    norm_num at this

theorem spiralCandidate_zero (cX cY r : ℝ) (n : Nat) (w : WordItem) :
    spiralCandidate cX cY r n 0 w = (cX + r - w.width / 2, cY - w.height / 2) := by
  simp only [spiralCandidate, Nat.cast_zero, zero_mul, zero_div,
    Real.cos_zero, Real.sin_zero, Prod.mk.injEq]
  constructor <;> ring

theorem tryCandidate_eval (cfg : LayoutConfig) (occ : List Rect) (w : WordItem)
    (cX cY r : ℝ) (n : Nat) (c : ℝ × ℝ)
    (hcand : spiralCandidate cX cY r n 0 w = c)
    (hmargin : ¬(c.1 < 10 ∨ c.2 < 10 ∨
      c.1 + w.width > cfg.width - 10 ∨ c.2 + w.height > cfg.height - 10))
    (hov : ¬∃ area ∈ occ, isOverlapping (candidateArea cfg w c.1 c.2) area) :
    tryCandidate cfg occ w cX cY r n 0 = some c := by
  simp only [tryCandidate]
  rw [hcand, if_neg hmargin, if_neg hov]

theorem tryAnglesAt_eval8 (cfg : LayoutConfig) (occ : List Rect) (w : WordItem)
    (cX cY r : ℝ) (c : ℝ × ℝ)
    (hnum : max 8 (⌊r / 8⌋).toNat = 8)
    (h0 : tryCandidate cfg occ w cX cY r 8 0 = some c) :
    tryAnglesAt cfg occ w cX cY r = some c := by
  simp only [tryAnglesAt, hnum]
  rw [show List.range 8 = [0, 1, 2, 3, 4, 5, 6, 7] from rfl, List.findSome?_cons, h0]

theorem findPositionOrderedSpiral_eval (w : WordItem) (cX cY : ℝ)
    (occ : List Rect) (cfg : LayoutConfig) (r : ℝ) (c : ℝ × ℝ)
    (hstart : max (w.fontSize / 2) 20 = r)
    (hlt : r < min cfg.width cfg.height / 2 - max w.width w.height)
    (htry : tryAnglesAt cfg occ w cX cY r = some c) :
    findPositionOrderedSpiral w cX cY occ cfg = some c := by
  simp only [findPositionOrderedSpiral, hstart]
  rw [radiusLoop, if_pos hlt, htry]

/-- Claim C1, evaluated at a failing input.  The packer checks candidates
against the recorded regions using padding `max(wordGap, fontSize/12)` but
then records the placed word padded by `max(wordGap, fontSize/10)` (and
clamps only after checking).  For a 20 × 120 glyph box of font size 100
followed by a 9 × 72 glyph box of font size 60 on the default canvas, the
second word is accepted at `(425.5, 264)` — its check padding 5 leaves a gap
of 0.5 to the first region — but is recorded with padding 6: the two recorded
padded OccupiedRegions `[380,420] × [230,370]` and `[419.5,440.5] × [258,342]`
intersect, violating the no-overlap invariant. -/
theorem claimC1 :
    (smartLayoutWords
        [⟨"alpha", 5, 100, "#FF4444", 0, 0, 0, 20, 120⟩,
         ⟨"beta", 4, 60, "#2196F3", 0, 0, 0, 9, 72⟩] defaultConfig).2
      = [⟨380, 230, 40, 140⟩, ⟨419.5, 258, 21, 84⟩] ∧
    isOverlapping (⟨380, 230, 40, 140⟩ : Rect) ⟨419.5, 258, 21, 84⟩ := by
  have hW : defaultConfig.width = 800 := rfl
  have hH : defaultConfig.height = 600 := rfl
  have hG : defaultConfig.wordGap = 3 := rfl
  have hsort : sortWords
      [(⟨"alpha", 5, 100, "#FF4444", 0, 0, 0, 20, 120⟩ : WordItem),
       ⟨"beta", 4, 60, "#2196F3", 0, 0, 0, 9, 72⟩]
      = [⟨"alpha", 5, 100, "#FF4444", 0, 0, 0, 20, 120⟩,
         ⟨"beta", 4, 60, "#2196F3", 0, 0, 0, 9, 72⟩] := by
    simp only [sortWords, List.insertionSort, List.orderedInsert]
    rw [if_pos (show (60:ℝ) ≤ 100 by norm_num)]
  have hcand : spiralCandidate 400 300 30 8 0
      ⟨"beta", 4, 60, "#2196F3", 0, 0, 0, 9, 72⟩ = (425.5, 264) := by
    rw [spiralCandidate_zero]
    norm_num [Prod.mk.injEq]
  have hmargin : ¬(((425.5:ℝ), (264:ℝ)).1 < 10 ∨ ((425.5:ℝ), (264:ℝ)).2 < 10 ∨
      ((425.5:ℝ), (264:ℝ)).1 + (⟨"beta", 4, 60, "#2196F3", 0, 0, 0, 9, 72⟩ : WordItem).width
        > defaultConfig.width - 10 ∨
      ((425.5:ℝ), (264:ℝ)).2 + (⟨"beta", 4, 60, "#2196F3", 0, 0, 0, 9, 72⟩ : WordItem).height
        > defaultConfig.height - 10) := by
    simp only [hW, hH]
    norm_num
  have hov : ¬∃ area ∈ [(⟨380, 230, 40, 140⟩ : Rect)],
      isOverlapping (candidateArea defaultConfig
        ⟨"beta", 4, 60, "#2196F3", 0, 0, 0, 9, 72⟩
        ((425.5:ℝ), (264:ℝ)).1 ((425.5:ℝ), (264:ℝ)).2) area := by
    have hca : candidateArea defaultConfig
        ⟨"beta", 4, 60, "#2196F3", 0, 0, 0, 9, 72⟩
        ((425.5:ℝ), (264:ℝ)).1 ((425.5:ℝ), (264:ℝ)).2 = ⟨420.5, 259, 19, 82⟩ := by
      simp only [candidateArea, hG]
      norm_num [max_def, Rect.mk.injEq]
    rw [hca]
    simp only [List.mem_singleton, exists_eq_left, isOverlapping, not_not]
    norm_num
  have htryCand : tryCandidate defaultConfig [⟨380, 230, 40, 140⟩]
      ⟨"beta", 4, 60, "#2196F3", 0, 0, 0, 9, 72⟩ 400 300 30 8 0
      = some (425.5, 264) :=
    tryCandidate_eval defaultConfig _ _ 400 300 30 8 (425.5, 264) hcand hmargin hov
  have hnum : max 8 ((⌊(30:ℝ) / 8⌋).toNat) = 8 := by
    have h3 : (⌊(30:ℝ) / 8⌋ : ℤ) = 3 := by
      rw [Int.floor_eq_iff]
      norm_num
    rw [h3]
    decide
  have htry : tryAnglesAt defaultConfig [⟨380, 230, 40, 140⟩]
      ⟨"beta", 4, 60, "#2196F3", 0, 0, 0, 9, 72⟩ 400 300 30 = some (425.5, 264) :=
    tryAnglesAt_eval8 defaultConfig _ _ 400 300 30 (425.5, 264) hnum htryCand
  have hstart : max ((⟨"beta", 4, 60, "#2196F3", 0, 0, 0, 9, 72⟩ : WordItem).fontSize / 2)
      (20:ℝ) = 30 := by
    norm_num [max_def]
  have hlt : (30:ℝ) < min defaultConfig.width defaultConfig.height / 2
      - max (⟨"beta", 4, 60, "#2196F3", 0, 0, 0, 9, 72⟩ : WordItem).width
            (⟨"beta", 4, 60, "#2196F3", 0, 0, 0, 9, 72⟩ : WordItem).height := by
    simp only [hW, hH]
    norm_num [min_def, max_def]
  have hspiral : findPositionOrderedSpiral
      ⟨"beta", 4, 60, "#2196F3", 0, 0, 0, 9, 72⟩ 400 300
      [⟨380, 230, 40, 140⟩] defaultConfig = some (425.5, 264) :=
    findPositionOrderedSpiral_eval _ 400 300 _ defaultConfig 30 (425.5, 264)
      hstart hlt htry
  constructor
  · simp only [smartLayoutWords, hsort, clampPos, recordedArea, hW, hH, hG]
    norm_num [min_def, max_def]
    simp only [layoutRest]
    rw [hspiral]
    simp only [clampPos, recordedArea, hW, hH, hG, layoutRest]
    norm_num [min_def, max_def, Rect.mk.injEq]
  · simp only [isOverlapping]
    norm_num

/-! ### The full pipeline (`generate`, `generator.ts` lines 130-163) -/

/-- The `colorful` theme (`generator.ts` lines 91-96). -/
def colorfulColors : List String :=
  ["#FF1744", "#2979FF", "#00E676", "#FF6D00", "#D500F9",
   "#00E5FF", "#6D4C41", "#455A64", "#C51162", "#3D5AFE",
   "#1DE9B6", "#FFD600", "#651FFF", "#FF3D00", "#76FF03",
   "#C6FF00", "#FF4081", "#40C4FF", "#69F0AE", "#B2FF59"]

/-- The `warm` theme (`generator.ts` lines 99-102). -/
def warmColors : List String :=
  ["#FF6B6B", "#FF8E53", "#FF6B9D", "#C44569", "#F8B500",
   "#FF7675", "#FD79A8", "#E17055", "#FDCB6E", "#E84393"]

/-- The `cool` theme (`generator.ts` lines 105-108). -/
def coolColors : List String :=
  ["#0984e3", "#74b9ff", "#00b894", "#00cec9", "#6c5ce7",
   "#a29bfe", "#fd79a8", "#55a3ff", "#26de81", "#45aaf2"]

/-- The `nature` theme (`generator.ts` lines 111-114). -/
def natureColors : List String :=
  ["#00b894", "#00cec9", "#55a3ff", "#fdcb6e", "#6c5ce7",
   "#fd79a8", "#e17055", "#81ecec", "#74b9ff", "#a29bfe"]

/-- The `business` theme (`generator.ts` lines 117-120). -/
def businessColors : List String :=
  ["#2d3436", "#636e72", "#74b9ff", "#0984e3", "#00b894",
   "#fdcb6e", "#e17055", "#6c5ce7", "#fd79a8", "#55a3ff"]

/-- `this.colorThemes[theme] || this.colorThemes.default`. -/
def themeColors (theme : String) : List String :=
  if theme = "default" then defaultColors
  else if theme = "colorful" then colorfulColors
  else if theme = "warm" then warmColors
  else if theme = "cool" then coolColors
  else if theme = "nature" then natureColors
  else if theme = "business" then businessColors
  else defaultColors

/-- `Math.max(...frequencies)` over the ranked list. -/
def maxFreqOf (l : List (String × Nat)) : Nat :=
  match l.map Prod.snd with
  | [] => 0
  | f :: fs => fs.foldl max f

/-- `Math.min(...frequencies)` over the ranked list. -/
def minFreqOf (l : List (String × Nat)) : Nat :=
  match l.map Prod.snd with
  | [] => 0
  | f :: fs => fs.foldl min f

/-- `prepareWordItems` from `generator.ts` (lines 203-240): per ranked word,
compute font size (`Math.round` modelled as `⌊· + 0.5⌋`), color, angle
(randomness passed in as `rng`, one draw per word index) and the estimated
box; positions start at 0. -/
noncomputable def prepareWordItems (wordFrequencies : List (String × Nat))
    (cfg : LayoutConfig) (rng : Nat → ℝ) : List WordItem :=
  if wordFrequencies.length = 0 then []
  else
    let maxFreq := maxFreqOf wordFrequencies
    let minFreq := minFreqOf wordFrequencies
    let colors := themeColors cfg.theme
    wordFrequencies.mapIdx fun index item =>
      let fontSize := calculateFontSize (item.2 : ℝ) (minFreq : ℝ) (maxFreq : ℝ) cfg.fontSize
      let color := selectColorInternal colors index (item.2 : ℚ) (maxFreq : ℚ)
      let angle := calculateAngle (rng index) index cfg.angleRange cfg.angleStep
      let dims := estimateTextDimensions item.1 fontSize angle
      ⟨item.1, item.2, ((⌊fontSize + 0.5⌋ : ℤ) : ℝ), color, angle, 0, 0, dims.1, dims.2⟩

/-- The fatal error kinds of the modelled pipeline core. -/
inductive GenError where
  | EmptyInput
deriving DecidableEq

/-- `generate` from `generator.ts` (lines 130-163), up to SVG serialization
(file persistence is outside the modelled core): analyze, abort with
`EmptyInput` if no words were found, otherwise prepare, pack and render. -/
noncomputable def generate (tokens : List String) (cfg : LayoutConfig)
    (rng : Nat → ℝ) (showNum : ℝ → List Char) : Except GenError (List Char) :=
  let wordFrequencies := analyzeWordFrequency tokens
  if wordFrequencies.length = 0 then Except.error GenError.EmptyInput
  else
    let wordItems := prepareWordItems wordFrequencies cfg rng
    let layoutedWords := (smartLayoutWords wordItems cfg).1
    Except.ok (generateSVG layoutedWords cfg.width cfg.height showNum)

/-- Claim C6.  An empty token list makes the Frequency Analyzer return the
empty sequence (no error); `generate` then fails with `EmptyInput` before the
Glyph Box Preparer and Spatial Packer run (the error branch is taken before
`prepareWordItems` and `smartLayoutWords` are applied); and `generate` raises
`EmptyInput` exactly when the analyzed word list is empty. -/
theorem claimC6 :
    analyzeWordFrequency [] = [] ∧
    (∀ (cfg : LayoutConfig) (rng : Nat → ℝ) (showNum : ℝ → List Char),
      generate [] cfg rng showNum = Except.error GenError.EmptyInput) ∧
    (∀ (tokens : List String) (cfg : LayoutConfig) (rng : Nat → ℝ)
        (showNum : ℝ → List Char),
      generate tokens cfg rng showNum = Except.error GenError.EmptyInput
        ↔ analyzeWordFrequency tokens = []) := by
  have hnil : analyzeWordFrequency [] = [] := rfl
  refine ⟨hnil, ?_, ?_⟩
  · intro cfg rng showNum
    simp only [generate, hnil, List.length_nil, if_pos]
  · intro tokens cfg rng showNum
    simp only [generate]
    by_cases h : (analyzeWordFrequency tokens).length = 0
    · rw [if_pos h]
      simp [List.length_eq_zero.mp h]
    · rw [if_neg h]
      constructor
      · intro habs
        exact absurd habs (by simp)
      · intro he
        rw [he] at h
        simp at h

/-- Claim C6, witness: `generate` on the empty token list with the default
configuration fails with `EmptyInput`. -/
theorem claimC6_witness :
    generate [] defaultConfig (fun _ => 0) (fun _ => [])
      = Except.error GenError.EmptyInput :=
  claimC6.2.1 defaultConfig (fun _ => 0) (fun _ => [])

end WordCloud
